import Mathlib

/-!
Shallow embedding of the content-presentation pipeline of the
Centria-Hub/uniqore repository: the tag-join aggregator, the listing
controller (filter / sort / paginate) shared by the events page
(src/app/events/page.tsx) and the articles page (src/unnamed/part_002,
whose controller logic is line-identical), and the Google--Calendar link
generator.  JavaScript numbers are modelled as Int (all arithmetic here
stays far below 2^53, where doubles are exact), JS strings as String,
JS arrays as List, and a rejected promise as `Except.error`.
-/

/-- Record of the `tags` collection: the reducer `acc[tag.id] = tag.tag`
reads exactly the fields `id` and `tag`. -/
structure Tag where
  id : Int
  tag : String
deriving Repr, DecidableEq

/-- Join-table row of the `events_tags` collection (the `articles_tags`
rows are the same shape with `articles_id` in place of `events_id`). -/
structure EventsTag where
  events_id : Int
  tags_id : Int
deriving Repr, DecidableEq

/-- Raw record of the primary `events` collection, restricted to the
fields the pages read (`loadEvents` copies exactly these, and the join
only inspects `id`). -/
structure RawEvent where
  id : Int
  slug : String
  title : String
  image : String
  date_created : String
  time : String
  location : String
  end_time : String
deriving Repr, DecidableEq

/-- The `post` type of src/app/events/page.tsx: a denormalized item, the
raw record with its resolved tag-label list attached. -/
structure post where
  id : Int
  slug : String
  title : String
  image : String
  date_created : String
  tags : List String
  time : String
  location : String
  end_time : String
deriving Repr, DecidableEq

/-- The JS object built by `tags.reduce((acc, tag) => { acc[tag.id] = tag.tag; return acc }, {})`,
modelled by its lookup function: later entries overwrite earlier ones
(last-write-wins), an absent key yields `none` (JS `undefined`). -/
def tagMap (tags : List Tag) : Int → Option String :=
  tags.foldl (fun acc tg => fun i => if i = tg.id then some tg.tag else acc i)
    (fun _ => none)

/-- The expression `tagMap[eventsTag.tags_id] || ''`: an absent key gives
`undefined`, and `undefined || ''` is `''`; a present empty label is also
falsy and likewise yields `''`, which `getD ""` reproduces. -/
def tagMapLookup (tags : List Tag) (i : Int) : String :=
  (tagMap tags i).getD ""

/-- The `events.map` body of `fetchEventsWithTags` (src/app/events/page.tsx
lines 62-71): for each primary item, select the join rows whose
`events_id` equals the item's id, map each to its label via the tag map
(absent ids becoming `''`), then drop falsy labels with
`.filter(Boolean)`.  `fetchArticlesWithTags` in src/unnamed/part_002 is
the same computation over `articles` / `articles_tags`. -/
def eventsWithTags (events : List RawEvent) (eventsTags : List EventsTag)
    (tags : List Tag) : List post :=
  events.map (fun item =>
    let relatedTags :=
      (eventsTags.filter (fun et => et.events_id == item.id)).map
        (fun et => tagMapLookup tags et.tags_id)
    { id := item.id, slug := item.slug, title := item.title,
      image := item.image, date_created := item.date_created,
      tags := relatedTags.filter (fun s => s != ""),
      time := item.time, location := item.location,
      end_time := item.end_time })

/-- The whole of `fetchEventsWithTags`: the three fetches are awaited with
`Promise.all`; if any rejects, the `catch` block logs
`console.error('Error fetching events with tags:', err)` and returns `[]`.
Each fetch outcome is modelled as an `Except`, and the returned pair is
(result, log lines) — a nonempty log models the `console.error` call.
That the function is total (it always returns a value instead of
re-throwing) models the fact that no error propagates to the caller. -/
def fetchEventsWithTags (events : Except String (List RawEvent))
    (eventsTags : Except String (List EventsTag))
    (tags : Except String (List Tag)) : List post × List String :=
  match events, eventsTags, tags with
  | .ok es, .ok ets, .ok ts => (eventsWithTags es ets ts, [])
  | .error e, _, _ => ([], ["Error fetching events with tags: " ++ e])
  | _, .error e, _ => ([], ["Error fetching events with tags: " ++ e])
  | _, _, .error e => ([], ["Error fetching events with tags: " ++ e])

/-- Lookup in the reduce-built tag map only ever returns labels of entries
of the tag dictionary. -/
theorem tagMap_mem_of_lookup (tags : List Tag) (i : Int) (s : String) :
    tagMap tags i = some s → ∃ tg ∈ tags, tg.id = i ∧ tg.tag = s := by
  have key : ∀ (ts : List Tag) (acc : Int → Option String),
      (ts.foldl (fun acc tg => fun j => if j = tg.id then some tg.tag else acc j) acc) i = some s →
      (∃ tg ∈ ts, tg.id = i ∧ tg.tag = s) ∨ acc i = some s := by
    intro ts
    induction ts with
    | nil => intro acc h; exact Or.inr h
    | cons tg rest ih =>
      intro acc h
      rcases ih _ h with h1 | h2
      · rcases h1 with ⟨tg', htg', h1⟩
        exact Or.inl ⟨tg', List.mem_cons_of_mem _ htg', h1⟩
      · by_cases hi : i = tg.id
        · simp only [hi, if_pos rfl] at h2
          exact Or.inl ⟨tg, List.mem_cons_self _ _, hi.symm, (Option.some.injEq _ _).mp h2⟩
        · simp only [if_neg hi] at h2
          exact Or.inr h2
  intro h
  rcases key tags _ h with h1 | h2
  · exact h1
  · simp at h2

/-- C3: every item produced by the tag-join aggregator carries only tag
labels that are present in the tag dictionary; join rows whose tag id is
absent from the dictionary (or resolves to an empty label) are dropped
silently — such rows become `''` via `tagMap[tags_id] || ''` and are then
removed by `.filter(Boolean)`, and the aggregator is a total function, so
no error is ever surfaced. -/
theorem eventsWithTags_tags_resolvable (events : List RawEvent)
    (eventsTags : List EventsTag) (tags : List Tag) (p : post)
    (hp : p ∈ eventsWithTags events eventsTags tags) (t : String)
    (ht : t ∈ p.tags) : t ≠ "" ∧ ∃ tg ∈ tags, tg.tag = t := by
  rcases List.mem_map.mp hp with ⟨item, _, rfl⟩
  simp only [List.mem_filter] at ht
  rcases ht with ⟨htmem, htne⟩
  have htne' : t ≠ "" := by
    intro h
    rw [h] at htne
    simp at htne
  refine ⟨htne', ?_⟩
  rcases List.mem_map.mp htmem with ⟨et, _, hlook⟩
  unfold tagMapLookup at hlook
  cases hm : tagMap tags et.tags_id with
  | none => rw [hm] at hlook; simp at hlook; exact absurd hlook.symm htne'
  | some s =>
    rw [hm] at hlook
    simp at hlook
    rcases tagMap_mem_of_lookup tags et.tags_id s hm with ⟨tg, htg, _, htag⟩
    exact ⟨tg, htg, by rw [htag, hlook]⟩

/-- Witness for C3 at a concrete input: one event, one join row, one
dictionary entry; the produced tag label "music" is nonempty and is a
dictionary label. -/
theorem eventsWithTags_tags_resolvable_witness :
    ("music" : String) ≠ "" ∧ ∃ tg ∈ [Tag.mk 1 "music"], tg.tag = "music" :=
  eventsWithTags_tags_resolvable
    [RawEvent.mk 10 "s" "T" "i" "d" "t" "l" "e"]
    [EventsTag.mk 10 1]
    [Tag.mk 1 "music"]
    (post.mk 10 "s" "T" "i" "d" ["music"] "t" "l" "e")
    (by decide) "music" (by decide)

/-- C4: the tag-join aggregator is a `map` over the primary collection, so
its output has exactly as many items as the primary collection, for every
input, including empty join-row or tag collections. -/
theorem eventsWithTags_length (events : List RawEvent)
    (eventsTags : List EventsTag) (tags : List Tag) :
    (eventsWithTags events eventsTags tags).length = events.length := by
  simp [eventsWithTags]

/-- C5: if any of the three fetches fails (its `Except` is an error), the
aggregator returns the empty collection together with a nonempty log (the
`console.error` call), and — being a total function — never propagates the
error to its caller. -/
theorem fetchEventsWithTags_degrades (events : Except String (List RawEvent))
    (eventsTags : Except String (List EventsTag))
    (tags : Except String (List Tag))
    (h : (∃ e, events = .error e) ∨ (∃ e, eventsTags = .error e) ∨
      (∃ e, tags = .error e)) :
    (fetchEventsWithTags events eventsTags tags).1 = [] ∧
      (fetchEventsWithTags events eventsTags tags).2 ≠ [] := by
  cases events <;> cases eventsTags <;> cases tags <;>
    simp_all [fetchEventsWithTags]

/-- Witness for C5 at a concrete input: a failed primary fetch yields the
empty collection and a nonempty log. -/
theorem fetchEventsWithTags_degrades_witness :
    (fetchEventsWithTags (Except.error "boom") (Except.ok []) (Except.ok [])).1 = [] ∧
      (fetchEventsWithTags (Except.error "boom") (Except.ok []) (Except.ok [])).2 ≠ [] :=
  fetchEventsWithTags_degrades (Except.error "boom") (Except.ok [])
    (Except.ok []) (Or.inl ⟨"boom", rfl⟩)

/-- The `toggleTag` handler (src/app/events/page.tsx lines 176-182,
src/unnamed/part_002 lines 146-152): if the tag is already selected it is
removed with `selectedTags.filter((t) => t !== tag)`, otherwise appended
with `[...selectedTags, tag]`. -/
def toggleTag (tag : String) (selectedTags : List String) : List String :=
  if selectedTags.contains tag then selectedTags.filter (fun t => t != tag)
  else selectedTags ++ [tag]

/-- Counterexample to C2 as stated: on the list `["a", "b"]`, toggling
"a" twice yields `["b", "a"]` — the same set of selected tags, but not
the original list value, because removal filters "a" out of its place
and the second toggle re-appends it at the end. -/
theorem toggleTag_twice_counterexample :
    toggleTag "a" (toggleTag "a" ["a", "b"]) = ["b", "a"] ∧
      toggleTag "a" (toggleTag "a" ["a", "b"]) ≠ ["a", "b"] := by
  decide

/-- C2 (amended): toggling a tag twice returns `selectedTags` to a list
with exactly the same members — every tag is selected afterwards iff it
was selected before, so the induced filter is unchanged — and when the
toggled tag was not selected the original list value itself is restored
exactly. -/
theorem toggleTag_twice_same_members (selectedTags : List String)
    (x : String) :
    (∀ y, y ∈ toggleTag x (toggleTag x selectedTags) ↔ y ∈ selectedTags) ∧
      (x ∉ selectedTags →
        toggleTag x (toggleTag x selectedTags) = selectedTags) := by
  by_cases hx : x ∈ selectedTags
  · have h1 : toggleTag x selectedTags =
        selectedTags.filter (fun t => t != x) := by
      simp [toggleTag, hx]
    have h3 : toggleTag x (toggleTag x selectedTags) =
        selectedTags.filter (fun t => t != x) ++ [x] := by
      rw [h1]; simp [toggleTag]
    constructor
    · intro y
      rw [h3]
      simp only [List.mem_append, List.mem_filter, bne_iff_ne, ne_eq,
        decide_eq_true_eq, List.mem_singleton]
      constructor
      · rintro (⟨hy, _⟩ | rfl)
        · exact hy
        · exact hx
      · intro hy
        by_cases hyx : y = x
        · exact Or.inr hyx
        · exact Or.inl ⟨hy, hyx⟩
    · intro hnx
      exact absurd hx hnx
  · have h1 : toggleTag x selectedTags = selectedTags ++ [x] := by
      simp [toggleTag, hx]
    have hfl : selectedTags.filter (fun t => t != x) = selectedTags := by
      refine List.filter_eq_self.mpr ?_
      intro a ha
      simp only [bne_iff_ne, ne_eq, decide_eq_true_eq]
      intro hax
      exact hx (hax ▸ ha)
    have h3 : toggleTag x (toggleTag x selectedTags) = selectedTags := by
      rw [h1]
      simp [toggleTag, List.filter_append, hfl]
    exact ⟨fun y => by rw [h3], fun _ => h3⟩

/-- Witness for C2's amended theorem: toggling "a" twice on `["b"]`
restores `["b"]` exactly. -/
theorem toggleTag_twice_same_members_witness :
    toggleTag "a" (toggleTag "a" ["b"]) = ["b"] :=
  (toggleTag_twice_same_members ["b"] "a").2 (by decide)

/-- The tag-filter step of the filter/sort effect (src/app/events/page.tsx
lines 150-154, src/unnamed/part_002 lines 120-124): when some tags are
selected, keep the posts satisfying
`selectedTags.some((tag) => post.tags.includes(tag))`; otherwise keep
everything. -/
def filterByTags (selectedTags : List String) (posts : List post) :
    List post :=
  if selectedTags.length > 0 then
    posts.filter (fun p => selectedTags.any (fun t => p.tags.contains t))
  else posts

/-- C7: an item passes the tag filter iff `selectedTags` is empty or the
item shares at least one tag with `selectedTags` (an OR across the
selected tags, not an AND). -/
theorem filterByTags_mem (selectedTags : List String) (posts : List post)
    (p : post) :
    p ∈ filterByTags selectedTags posts ↔
      p ∈ posts ∧ (selectedTags = [] ∨ ∃ t ∈ selectedTags, t ∈ p.tags) := by
  unfold filterByTags
  by_cases hsel : selectedTags = []
  · subst hsel
    simp
  · have hlen : selectedTags.length > 0 := List.length_pos.mpr hsel
    rw [if_pos hlen, List.mem_filter]
    simp only [List.any_eq_true, List.elem_eq_mem, decide_eq_true_eq]
    constructor
    · rintro ⟨hp, t, ht, htags⟩
      exact ⟨hp, Or.inr ⟨t, ht, htags⟩⟩
    · rintro ⟨hp, hcases⟩
      rcases hcases with rfl | ⟨t, ht, htags⟩
      · exact absurd rfl hsel
      · exact ⟨hp, t, ht, htags⟩

/-- The sort order state: `'newest' | 'oldest'`. -/
inductive SortOrder where
  | newest
  | oldest
deriving Repr, DecidableEq

/-- The listing controller's state variables (the `useState` hooks of the
page component).  The dropdown-open flag is omitted: it feeds no logic in
the claims' scope.  `currentPage` and `totalPages` are JS numbers,
modelled as Int. -/
structure ListingState where
  selectedTags : List String
  sortOrder : SortOrder
  filteredPosts : List post
  currentPage : Int
  totalPages : Int
  displayedPosts : List post
  blogPosts : List post
deriving Repr, DecidableEq

/-- The `goToPage` handler (src/app/events/page.tsx lines 195-200,
src/unnamed/part_002 lines 165-170): `if (page >= 1 && page <= totalPages)`
set `currentPage` and call `window.scrollTo`.  The returned Bool records
whether scroll-to-top was requested. -/
def goToPage (page : Int) (s : ListingState) : ListingState × Bool :=
  if page ≥ 1 ∧ page ≤ s.totalPages then
    ({ s with currentPage := page }, true)
  else (s, false)

/-- C9: `goToPage n` leaves the whole controller state unchanged (and
requests no scroll) when `n` is outside `[1, totalPages]`; inside the
range it sets `currentPage := n`, changes no other state field, and
requests scroll-to-top. -/
theorem goToPage_frame (s : ListingState) (n : Int) :
    (1 ≤ n ∧ n ≤ s.totalPages →
        goToPage n s = ({ s with currentPage := n }, true)) ∧
      (¬(1 ≤ n ∧ n ≤ s.totalPages) → goToPage n s = (s, false)) := by
  unfold goToPage
  constructor
  · intro h
    rw [if_pos ⟨h.1, h.2⟩]
  · intro h
    rw [if_neg h]

/-- Witness for C9 at a concrete state with three pages: page 2 is taken
(only `currentPage` changes, scroll requested), page 5 is a no-op. -/
theorem goToPage_frame_witness :
    (goToPage 2 (ListingState.mk [] SortOrder.newest [] 1 3 [] []) =
        ({ ListingState.mk [] SortOrder.newest [] 1 3 [] [] with
            currentPage := 2 }, true)) ∧
      goToPage 5 (ListingState.mk [] SortOrder.newest [] 1 3 [] []) =
        (ListingState.mk [] SortOrder.newest [] 1 3 [] [], false) :=
  ⟨(goToPage_frame (ListingState.mk [] SortOrder.newest [] 1 3 [] []) 2).1
      (by decide),
    (goToPage_frame (ListingState.mk [] SortOrder.newest [] 1 3 [] []) 5).2
      (by decide)⟩

/-- Splitting a character list at every occurrence of a separator
character (the behavior of `String.split` on a single-character
separator), used to take ISO date strings apart. -/
def splitOnChar (sep : Char) : List Char → List (List Char)
  | [] => [[]]
  | c :: cs =>
    match splitOnChar sep cs with
    | [] => if c = sep then [[], []] else [[c]]
    | g :: gs => if c = sep then [] :: g :: gs else (c :: g) :: gs

/-- Numeric value of a digit string. -/
def digitsVal (cs : List Char) : Nat :=
  cs.foldl (fun n c => n * 10 + (c.toNat - 48)) 0

/-- Numeric value of a nonempty all-digit string, `none` otherwise. -/
def digitsToNum (cs : List Char) : Option Nat :=
  if cs ≠ [] ∧ cs.all Char.isDigit then some (digitsVal cs) else none

/-- A civil UTC instant, the result of JS `Date` parsing an ISO timestamp:
calendar fields plus milliseconds. -/
structure DateParts where
  year : Nat
  month : Nat
  day : Nat
  hour : Nat
  minute : Nat
  second : Nat
  millis : Nat
deriving Repr, DecidableEq

/-- Parse the `YYYY-MM-DD` date part of an ISO string, with the range
checks the ECMAScript date-time string format performs. -/
def parseYMD (cs : List Char) : Option (Nat × Nat × Nat) :=
  match splitOnChar '-' cs with
  | [y, m, d] =>
    match digitsToNum y, digitsToNum m, digitsToNum d with
    | some yn, some mn, some dn =>
      if y.length = 4 ∧ m.length = 2 ∧ d.length = 2 ∧
          1 ≤ mn ∧ mn ≤ 12 ∧ 1 ≤ dn ∧ dn ≤ 31 then
        some (yn, mn, dn)
      else none
    | _, _, _ => none
  | _ => none

/-- Milliseconds denoted by the fractional-seconds digit string: the
first three digits, right-padded with zeros. -/
def fracToMillis (cs : List Char) : Option Nat :=
  if cs ≠ [] ∧ cs.all Char.isDigit then
    some (digitsVal ((cs ++ ['0', '0', '0']).take 3))
  else none

/-- Parse the `HH:MM`, `HH:MM:SS` or `HH:MM:SS.sss` time part of an ISO
string. -/
def parseHMS (cs : List Char) : Option (Nat × Nat × Nat × Nat) :=
  match splitOnChar ':' cs with
  | [h, m] =>
    match digitsToNum h, digitsToNum m with
    | some hn, some mn =>
      if h.length = 2 ∧ m.length = 2 ∧ hn ≤ 23 ∧ mn ≤ 59 then
        some (hn, mn, 0, 0)
      else none
    | _, _ => none
  | [h, m, sfull] =>
    match splitOnChar '.' sfull with
    | [s] =>
      match digitsToNum h, digitsToNum m, digitsToNum s with
      | some hn, some mn, some sn =>
        if h.length = 2 ∧ m.length = 2 ∧ s.length = 2 ∧
            hn ≤ 23 ∧ mn ≤ 59 ∧ sn ≤ 59 then
          some (hn, mn, sn, 0)
        else none
      | _, _, _ => none
    | [s, frac] =>
      match digitsToNum h, digitsToNum m, digitsToNum s, fracToMillis frac with
      | some hn, some mn, some sn, some msn =>
        if h.length = 2 ∧ m.length = 2 ∧ s.length = 2 ∧
            hn ≤ 23 ∧ mn ≤ 59 ∧ sn ≤ 59 then
          some (hn, mn, sn, msn)
        else none
      | _, _, _, _ => none
    | _ => none
  | _ => none

/-- JS `new Date(s)` on the ISO forms this program feeds it: a date-only
string `YYYY-MM-DD` (interpreted by JS as UTC midnight) or a UTC
timestamp `YYYY-MM-DDTHH:MM[:SS[.sss]]Z`.  `none` models an Invalid Date
(whose `getTime()` is NaN).  Local-time forms without the trailing `Z`
and the other inputs `Date` accepts are outside the modelled scope: the
claims exercise only these forms. -/
def jsDateParse (str : String) : Option DateParts :=
  match splitOnChar 'T' str.data with
  | [d] =>
    (parseYMD d).map (fun ymd => DateParts.mk ymd.1 ymd.2.1 ymd.2.2 0 0 0 0)
  | [d, t] =>
    match parseYMD d,
        (if t.getLast? = some 'Z' then parseHMS t.dropLast else none) with
    | some ymd, some hms =>
      some (DateParts.mk ymd.1 ymd.2.1 ymd.2.2 hms.1 hms.2.1 hms.2.2.1
        hms.2.2.2)
    | _, _ => none
  | _ => none

/-- Days from the epoch 1970-01-01 of a proleptic-Gregorian civil date
(the days-from-civil algorithm), so that `getTime` below agrees with the
epoch-millisecond value a JS `Date` holds. -/
def daysFromCivil (y : Int) (m d : Nat) : Int :=
  let yAdj : Int := if m ≤ 2 then y - 1 else y
  let era : Int := yAdj.fdiv 400
  let yoe : Int := yAdj - era * 400
  let mp : Nat := if m ≤ 2 then m + 9 else m - 3
  let doy : Int := ((153 * mp + 2) / 5 + d - 1 : Nat)
  let doe : Int := yoe * 365 + yoe.fdiv 4 - yoe.fdiv 100 + doy
  era * 146097 + doe - 719468

/-- JS `Date.prototype.getTime` on a parsed UTC instant: milliseconds
since the epoch. -/
def getTime (dp : DateParts) : Int :=
  ((((daysFromCivil dp.year dp.month dp.day) * 24 + dp.hour) * 60 +
      dp.minute) * 60 + dp.second) * 1000 + dp.millis

/-- The value of `new Date(s).getTime()`: `none` models NaN (unparseable
input). -/
def jsGetTime (s : String) : Option Int :=
  (jsDateParse s).map getTime

/-- The sort comparator of the filter/sort effect
(src/app/events/page.tsx lines 156-161, src/unnamed/part_002 lines
126-131): `dateB - dateA` for `newest`, `dateA - dateB` for `oldest`,
on `new Date(x.date_created).getTime()`.  When either date is
unparseable the JS subtraction yields NaN, and ECMAScript's SortCompare
treats a NaN comparator result as `+0`; the `none` branches return 0
accordingly. -/
def dateCompare (so : SortOrder) (a b : post) : Int :=
  match jsGetTime a.date_created, jsGetTime b.date_created with
  | some dateA, some dateB =>
    match so with
    | SortOrder.newest => dateB - dateA
    | SortOrder.oldest => dateA - dateB
  | _, _ => 0

/-- Insert an element into a list, placing it before the first element it
may precede (`le a b = true`). -/
def insertLe (le : α → α → Bool) (a : α) : List α → List α
  | [] => [a]
  | b :: bs => if le a b then a :: b :: bs else b :: insertLe le a bs

/-- Stable insertion sort.  ECMAScript specifies `Array.prototype.sort`
declaratively — the result is a stable reordering consistent with the
comparator — and for a consistent comparator stable insertion sort
produces exactly that result, so it serves as the model of the source's
`result.sort(...)`. -/
def stableSort (le : α → α → Bool) (l : List α) : List α :=
  l.foldr (insertLe le) []

/-- The date-sort step of the filter/sort effect: sort by the comparator,
keeping `a` no later than `b` whenever the comparator is ≤ 0. -/
def sortPosts (so : SortOrder) (posts : List post) : List post :=
  stableSort (fun a b => dateCompare so a b ≤ 0) posts

/-- Result of one run of the filter/sort effect: the three `set...` calls
it performs. -/
structure RecomputeResult where
  filteredPosts : List post
  totalPages : Int
  currentPage : Int
deriving Repr, DecidableEq

/-- The constant `POSTS_PER_PAGE = 12`. -/
def POSTS_PER_PAGE : Nat := 12

/-- The value `Math.ceil(n / 12)` for a list length `n` (exact for JS
doubles at any list length below 2^52). -/
def ceilDivPageSize (n : Nat) : Nat :=
  (n + POSTS_PER_PAGE - 1) / POSTS_PER_PAGE

/-- The filter/sort effect (src/app/events/page.tsx lines 146-166,
src/unnamed/part_002 lines 116-136): tag-filter the base collection,
sort it by date, then `setFilteredPosts(result)`,
`setTotalPages(Math.ceil(result.length / POSTS_PER_PAGE))`, and
`setCurrentPage(1)`. -/
def applyFiltersAndSort (blogPosts : List post) (selectedTags : List String)
    (so : SortOrder) : RecomputeResult :=
  let result := filterByTags selectedTags blogPosts
  let result := sortPosts so result
  { filteredPosts := result,
    totalPages := (ceilDivPageSize result.length : Int),
    currentPage := 1 }

/-- Counterexample to C1 as stated: with an empty base collection the
filter/sort effect sets `totalPages` to `Math.ceil(0 / 12) = 0`, not to
`max(1, ceil(0/12)) = 1` — the source applies no minimum. -/
theorem totalPages_min_counterexample :
    (applyFiltersAndSort [] [] SortOrder.newest).totalPages = 0 ∧
      (applyFiltersAndSort [] [] SortOrder.newest).totalPages ≠
        max 1 ((ceilDivPageSize
          (applyFiltersAndSort [] []
            SortOrder.newest).filteredPosts.length : Nat) : Int) := by
  decide

/-- C1 (amended): after the filter/sort effect recomputes the view,
`totalPages` equals `ceil(filteredCount / 12)` with no minimum applied:
it is 0 when the filtered collection is empty (only the pre-fetch initial
`useState(1)` value is 1), and for a nonempty filtered collection it
coincides with `max(1, ceil(filteredCount / 12))`. -/
theorem totalPages_eq_ceil (blogPosts : List post)
    (selectedTags : List String) (so : SortOrder) :
    (applyFiltersAndSort blogPosts selectedTags so).totalPages =
        ((ceilDivPageSize (applyFiltersAndSort blogPosts selectedTags
          so).filteredPosts.length : Nat) : Int) ∧
      (0 < (applyFiltersAndSort blogPosts selectedTags
          so).filteredPosts.length →
        (applyFiltersAndSort blogPosts selectedTags so).totalPages =
          max 1 ((ceilDivPageSize (applyFiltersAndSort blogPosts selectedTags
            so).filteredPosts.length : Nat) : Int)) := by
  refine ⟨rfl, fun h => ?_⟩
  have h1 : 1 ≤ ceilDivPageSize
      (applyFiltersAndSort blogPosts selectedTags so).filteredPosts.length := by
    unfold ceilDivPageSize POSTS_PER_PAGE
    omega
  have h2 : (1 : Int) ≤ ((ceilDivPageSize (applyFiltersAndSort blogPosts
      selectedTags so).filteredPosts.length : Nat) : Int) := by
    exact_mod_cast h1
  rw [max_eq_right h2]
  rfl

/-- Sample post used to witness C1's amended theorem. -/
def c1post : post :=
  post.mk 1 "fair" "Fair" "img" "2024-01-01" [] "" "" ""

/-- Witness for C1's amended theorem: one post gives a nonempty filtered
collection, and `totalPages` then equals the clamped formula. -/
theorem totalPages_eq_ceil_witness :
    (applyFiltersAndSort [c1post] [] SortOrder.newest).totalPages =
      max 1 ((ceilDivPageSize (applyFiltersAndSort [c1post] []
        SortOrder.newest).filteredPosts.length : Nat) : Int) :=
  (totalPages_eq_ceil [c1post] [] SortOrder.newest).2 (by decide)

/-- Membership is invariant under insertion. -/
theorem mem_insertLe (le : α → α → Bool) (a x : α) (l : List α) :
    x ∈ insertLe le a l ↔ x = a ∨ x ∈ l := by
  induction l with
  | nil => simp [insertLe]
  | cons b bs ih =>
    simp only [insertLe]
    by_cases h : le a b = true
    · simp only [if_pos h, List.mem_cons]
    · simp only [if_neg h, List.mem_cons, ih]
      tauto

/-- Inserting into a list sorted by `le` keeps it sorted, provided `le`
is transitive and total on a predicate all elements satisfy. -/
theorem pairwise_insertLe (le : α → α → Bool) (P : α → Prop)
    (htrans : ∀ a b c, P a → P b → P c → le a b = true → le b c = true →
      le a c = true)
    (htotal : ∀ a b, P a → P b → le a b = true ∨ le b a = true)
    (a : α) (ha : P a) :
    ∀ l : List α, (∀ x ∈ l, P x) →
      l.Pairwise (fun x y => le x y = true) →
      (insertLe le a l).Pairwise (fun x y => le x y = true) := by
  intro l
  induction l with
  | nil =>
    intro _ _
    simp [insertLe]
  | cons b bs ih =>
    intro hP hpw
    rw [List.pairwise_cons] at hpw
    obtain ⟨hb, hbs⟩ := hpw
    have hPb : P b := hP b (List.mem_cons_self _ _)
    have hPbs : ∀ x ∈ bs, P x := fun x hx => hP x (List.mem_cons_of_mem _ hx)
    simp only [insertLe]
    by_cases hab : le a b = true
    · rw [if_pos hab, List.pairwise_cons]
      refine ⟨?_, List.pairwise_cons.mpr ⟨hb, hbs⟩⟩
      intro x hx
      rcases List.mem_cons.mp hx with rfl | hx'
      · exact hab
      · exact htrans a b x ha hPb (hPbs x hx') hab (hb x hx')
    · rw [if_neg hab, List.pairwise_cons]
      constructor
      · intro x hx
        rcases (mem_insertLe le a x bs).mp hx with hxa | hx'
        · subst hxa
          rcases htotal x b ha hPb with h | h
          · exact absurd h hab
          · exact h
        · exact hb x hx'
      · exact ih hPbs hbs

/-- Membership is invariant under the stable sort. -/
theorem mem_stableSort (le : α → α → Bool) (x : α) :
    ∀ l : List α, x ∈ stableSort le l ↔ x ∈ l := by
  intro l
  induction l with
  | nil => simp [stableSort]
  | cons a as ih =>
    have hstep : stableSort le (a :: as) = insertLe le a (stableSort le as) :=
      rfl
    rw [hstep, mem_insertLe, ih, List.mem_cons]

/-- The stable sort's output is pairwise ordered by `le`, provided `le`
is transitive and total on a predicate all elements satisfy. -/
theorem pairwise_stableSort (le : α → α → Bool) (P : α → Prop)
    (htrans : ∀ a b c, P a → P b → P c → le a b = true → le b c = true →
      le a c = true)
    (htotal : ∀ a b, P a → P b → le a b = true ∨ le b a = true) :
    ∀ l : List α, (∀ x ∈ l, P x) →
      (stableSort le l).Pairwise (fun x y => le x y = true) := by
  intro l
  induction l with
  | nil =>
    intro _
    simp [stableSort]
  | cons a as ih =>
    intro hP
    have hstep : stableSort le (a :: as) = insertLe le a (stableSort le as) :=
      rfl
    rw [hstep]
    have hPas : ∀ x ∈ as, P x := fun x hx => hP x (List.mem_cons_of_mem _ hx)
    have hPs : ∀ x ∈ stableSort le as, P x := fun x hx =>
      hPas x ((mem_stableSort le x as).mp hx)
    exact pairwise_insertLe le P htrans htotal a
      (hP a (List.mem_cons_self _ _)) (stableSort le as) hPs (ih hPas)

/-- On posts whose dates parse, the comparator is exactly the timestamp
difference: `dateB - dateA` for `newest`, `dateA - dateB` for `oldest`. -/
theorem dateCompare_some (so : SortOrder) (a b : post) (ta tb : Int)
    (hA : jsGetTime a.date_created = some ta)
    (hB : jsGetTime b.date_created = some tb) :
    dateCompare so a b =
      (match so with
        | SortOrder.newest => tb - ta
        | SortOrder.oldest => ta - tb) := by
  unfold dateCompare
  rw [hA, hB]

/-- Sample post dated 2024-01-01, for C8. -/
def c8jan : post := post.mk 1 "jan" "Jan" "img" "2024-01-01" [] "" "" ""

/-- Sample post dated 2024-06-01, for C8. -/
def c8jun : post := post.mk 2 "jun" "Jun" "img" "2024-06-01" [] "" "" ""

/-- Sample post dated 2023-12-31, for C8. -/
def c8dec : post := post.mk 3 "dec" "Dec" "img" "2023-12-31" [] "" "" ""

/-- C8: the sort compares parsed `date_created` timestamps numerically —
whenever all dates parse, consecutive elements of the sorted output have
non-increasing timestamps under `newest` and non-decreasing under
`oldest` — and on items dated [2024-01-01, 2024-06-01, 2023-12-31] the
`newest` order is [2024-06-01, 2024-01-01, 2023-12-31] and the `oldest`
order is its reverse. -/
theorem sortPosts_by_date :
    (∀ (so : SortOrder) (posts : List post),
        (∀ p ∈ posts, (jsGetTime p.date_created).isSome = true) →
        (sortPosts so posts).Pairwise (fun a b => ∀ ta tb,
          jsGetTime a.date_created = some ta →
          jsGetTime b.date_created = some tb →
          (match so with
            | SortOrder.newest => tb ≤ ta
            | SortOrder.oldest => ta ≤ tb))) ∧
      sortPosts SortOrder.newest [c8jan, c8jun, c8dec] =
        [c8jun, c8jan, c8dec] ∧
      sortPosts SortOrder.oldest [c8jan, c8jun, c8dec] =
        [c8dec, c8jan, c8jun] := by
  refine ⟨?_, by decide, by decide⟩
  intro so posts hall
  have hP : ∀ p ∈ posts, ∃ t, jsGetTime p.date_created = some t := by
    intro p hp
    exact Option.isSome_iff_exists.mp (hall p hp)
  have hpw := pairwise_stableSort
    (fun a b => decide (dateCompare so a b ≤ 0))
    (fun p => ∃ t, jsGetTime p.date_created = some t)
    (by
      intro a b c ⟨ta, hta⟩ ⟨tb, htb⟩ ⟨tc, htc⟩ h1 h2
      rw [decide_eq_true_eq] at h1 h2 ⊢
      rw [dateCompare_some so a b ta tb hta htb] at h1
      rw [dateCompare_some so b c tb tc htb htc] at h2
      rw [dateCompare_some so a c ta tc hta htc]
      cases so <;> simp only at h1 h2 ⊢ <;> omega)
    (by
      intro a b ⟨ta, hta⟩ ⟨tb, htb⟩
      rw [decide_eq_true_eq, decide_eq_true_eq]
      rw [dateCompare_some so a b ta tb hta htb]
      rw [dateCompare_some so b a tb ta htb hta]
      cases so <;> simp only <;> omega)
    posts hP
  refine List.Pairwise.imp ?_ hpw
  intro a b h
  intro ta tb hta htb
  rw [decide_eq_true_eq] at h
  rw [dateCompare_some so a b ta tb hta htb] at h
  cases so <;> simp only at h ⊢ <;> omega

/-- Witness for C8's universally quantified clause at the concrete
three-post list, whose dates all parse. -/
theorem sortPosts_by_date_witness :
    (sortPosts SortOrder.newest [c8jan, c8jun, c8dec]).Pairwise
      (fun a b => ∀ ta tb,
        jsGetTime a.date_created = some ta →
        jsGetTime b.date_created = some tb →
        (match SortOrder.newest with
          | SortOrder.newest => tb ≤ ta
          | SortOrder.oldest => ta ≤ tb)) :=
  sortPosts_by_date.1 SortOrder.newest [c8jan, c8jun, c8dec] (by decide)

/-- ECMAScript `Array.prototype.slice(start, end)`: negative indices wrap
from the end, both are clamped to `[0, length]`, and the elements from
the resolved start (inclusive) to the resolved end (exclusive) are
returned. -/
def jsSlice (l : List α) (s e : Int) : List α :=
  let len : Int := l.length
  let k := if s < 0 then max (len + s) 0 else min s len
  let fin := if e < 0 then max (len + e) 0 else min e len
  (l.drop k.toNat).take (fin - k).toNat

/-- The displayed-posts effect (src/app/events/page.tsx lines 169-173,
src/unnamed/part_002 lines 139-143):
`startIndex = (currentPage - 1) * POSTS_PER_PAGE`,
`endIndex = startIndex + POSTS_PER_PAGE`,
`setDisplayedPosts(filteredPosts.slice(startIndex, endIndex))`. -/
def displayedPostsOf (filteredPosts : List post) (currentPage : Int) :
    List post :=
  let startIndex := (currentPage - 1) * (POSTS_PER_PAGE : Int)
  let endIndex := startIndex + (POSTS_PER_PAGE : Int)
  jsSlice filteredPosts startIndex endIndex

/-- For non-negative, ordered indices, the JS slice is drop-then-take. -/
theorem jsSlice_eq_drop_take (l : List α) (s e : Int) (hs : 0 ≤ s)
    (hse : s ≤ e) :
    jsSlice l s e = (l.drop s.toNat).take (e - s).toNat := by
  simp only [jsSlice]
  rw [if_neg (not_lt.mpr hs), if_neg (not_lt.mpr (le_trans hs hse))]
  by_cases hsl : s ≤ (l.length : Int)
  · rw [min_eq_left hsl]
    by_cases hel : e ≤ (l.length : Int)
    · rw [min_eq_left hel]
    · rw [min_eq_right (le_of_not_le hel)]
      rw [List.take_of_length_le, List.take_of_length_le]
      · rw [List.length_drop]
        omega
      · rw [List.length_drop]
        omega
  · have hls : (l.length : Int) ≤ s := le_of_not_le hsl
    rw [min_eq_right hls, min_eq_right (le_trans hls hse)]
    rw [List.drop_eq_nil_of_le (by omega), List.drop_eq_nil_of_le (by omega)]
    simp

/-- Page `cp ≥ 1` displays the contiguous window starting at item
`(cp - 1) * 12` of the filtered list. -/
theorem displayedPostsOf_window (filtered : List post) (cp : Int)
    (h : 1 ≤ cp) :
    displayedPostsOf filtered cp =
      (filtered.drop ((cp - 1).toNat * POSTS_PER_PAGE)).take
        POSTS_PER_PAGE := by
  unfold displayedPostsOf
  rw [jsSlice_eq_drop_take filtered _ _ (by unfold POSTS_PER_PAGE; omega)
    (by unfold POSTS_PER_PAGE; omega)]
  have h1 : ((cp - 1) * (POSTS_PER_PAGE : Int)).toNat =
      (cp - 1).toNat * POSTS_PER_PAGE := by
    unfold POSTS_PER_PAGE
    omega
  have h2 : ((cp - 1) * (POSTS_PER_PAGE : Int) + (POSTS_PER_PAGE : Int) -
      (cp - 1) * (POSTS_PER_PAGE : Int)).toNat = POSTS_PER_PAGE := by
    omega
  rw [h1, h2]

/-- Concatenating the first `k` drop/take windows of width 12 recovers
the first `k * 12` elements. -/
theorem join_take_windows (k : Nat) (l : List α) :
    ((List.range k).map
      (fun i => (l.drop (i * POSTS_PER_PAGE)).take POSTS_PER_PAGE)).flatten =
      l.take (k * POSTS_PER_PAGE) := by
  induction k with
  | zero => simp
  | succ n ih =>
    rw [List.range_succ, List.map_append, List.flatten_append]
    simp only [List.map_cons, List.map_nil, List.flatten_cons,
      List.flatten_nil, List.append_nil]
    rw [ih, Nat.succ_mul, List.take_add]

/-- Sample posts used to witness C10. -/
def c10a : post := post.mk 1 "a" "A" "img" "2024-01-01" [] "" "" ""

/-- Second sample post used to witness C10. -/
def c10b : post := post.mk 2 "b" "B" "img" "2024-02-01" [] "" "" ""

/-- C10: for every filtered list and every page `cp ≥ 1`, the displayed
page is exactly the window `filteredPosts[(cp-1)*12 .. cp*12)` — so it
has at most 12 items — and the pages `1..n` (for any `n` covering the
list) concatenate back to the whole filtered list in order, without
overlap or gap. -/
theorem displayedPosts_pagination (filtered : List post) :
    (∀ cp : Int, 1 ≤ cp →
        displayedPostsOf filtered cp =
          (filtered.drop ((cp - 1).toNat * POSTS_PER_PAGE)).take
            POSTS_PER_PAGE ∧
        (displayedPostsOf filtered cp).length ≤ POSTS_PER_PAGE) ∧
      (∀ n : Nat, filtered.length ≤ n * POSTS_PER_PAGE →
        ((List.range n).map
          (fun (i : Nat) => displayedPostsOf filtered
            ((i : Int) + 1))).flatten = filtered) := by
  constructor
  · intro cp hcp
    refine ⟨displayedPostsOf_window filtered cp hcp, ?_⟩
    rw [displayedPostsOf_window filtered cp hcp]
    calc ((filtered.drop ((cp - 1).toNat * POSTS_PER_PAGE)).take
        POSTS_PER_PAGE).length
        = min POSTS_PER_PAGE
            (filtered.drop ((cp - 1).toNat * POSTS_PER_PAGE)).length :=
          List.length_take _ _
      _ ≤ POSTS_PER_PAGE := min_le_left _ _
  · intro n hn
    have hmap : (List.range n).map
        (fun (i : Nat) => displayedPostsOf filtered ((i : Int) + 1)) =
        (List.range n).map
          (fun (i : Nat) => (filtered.drop (i * POSTS_PER_PAGE)).take
            POSTS_PER_PAGE) := by
      refine List.map_congr_left ?_
      intro i _
      rw [displayedPostsOf_window filtered ((i : Int) + 1) (by omega)]
      have : (((i : Int) + 1) - 1).toNat = i := by omega
      rw [this]
    rw [hmap, join_take_windows, List.take_of_length_le hn]

/-- Witness for C10 at a two-post filtered list: page 1 is the first
window and the single page concatenates back to the list. -/
theorem displayedPosts_pagination_witness :
    (displayedPostsOf [c10a, c10b] 1 =
        ([c10a, c10b].drop (((1 : Int) - 1).toNat * POSTS_PER_PAGE)).take
          POSTS_PER_PAGE ∧
      (displayedPostsOf [c10a, c10b] 1).length ≤ POSTS_PER_PAGE) ∧
      ((List.range 1).map
        (fun (i : Nat) => displayedPostsOf [c10a, c10b]
          ((i : Int) + 1))).flatten = [c10a, c10b] :=
  ⟨(displayedPosts_pagination [c10a, c10b]).1 1 (by decide),
    (displayedPosts_pagination [c10a, c10b]).2 1 (by decide)⟩

/-- Decimal digits of `n`, left-padded with zeros to the given width. -/
def padNum (width n : Nat) : List Char :=
  let ds := Nat.toDigits 10 n
  List.replicate (width - ds.length) '0' ++ ds

/-- JS `Date.prototype.toISOString` on a UTC instant:
`YYYY-MM-DDTHH:MM:SS.sssZ` (years of this program all have four
digits; the six-digit expanded-year form never arises here). -/
def toISOString (dp : DateParts) : List Char :=
  padNum 4 dp.year ++ ['-'] ++ padNum 2 dp.month ++ ['-'] ++
    padNum 2 dp.day ++ ['T'] ++ padNum 2 dp.hour ++ [':'] ++
    padNum 2 dp.minute ++ [':'] ++ padNum 2 dp.second ++ ['.'] ++
    padNum 3 dp.millis ++ ['Z']

/-- The source's global regex replacement (pattern `-|:|\.\d+`, empty
replacement) as a character scanner: `'-'` and `':'` are dropped, and a `'.'` followed by
at least one digit is dropped together with the whole digit run (the
Boolean argument tracks being inside such a run). -/
def headIsDigit : List Char → Bool
  | d :: _ => d.isDigit
  | [] => false

/-- Scanner slave of the regex model, see `headIsDigit` for the one-char
lookahead. -/
def stripDateSeps (inDigits : Bool) : List Char → List Char
  | [] => []
  | c :: cs =>
    if inDigits ∧ c.isDigit then stripDateSeps true cs
    else if c = '-' ∨ c = ':' then stripDateSeps false cs
    else if c = '.' ∧ headIsDigit cs then stripDateSeps true cs
    else c :: stripDateSeps false cs

/-- The inner `formatDate` of `generateGoogleCalendarUrl`
(src/app/events/page.tsx lines 90-92): `date.toISOString()` with every
`-`, `:` and dot-digit-run stripped by the regex replacement above. -/
def formatDate (d : DateParts) : String :=
  String.mk (stripDateSeps false (toISOString d))

/-- Uppercase hexadecimal digit. -/
def hexDigitChar (n : Nat) : Char :=
  if n < 10 then Char.ofNat (48 + n) else Char.ofNat (55 + n)

/-- One character under the `application/x-www-form-urlencoded`
serializer that `URLSearchParams.toString` uses: ASCII alphanumerics and
`*-._` pass through, space becomes `'+'`, anything else is
percent-encoded.  Faithful for ASCII code points, which covers every
string this program serializes; multi-byte UTF-8 percent-encoding is
outside the modelled scope. -/
def encodeChar (c : Char) : List Char :=
  if c.isAlphanum ∨ c = '*' ∨ c = '-' ∨ c = '.' ∨ c = '_' then [c]
  else if c = ' ' then ['+']
  else ['%', hexDigitChar (c.toNat / 16), hexDigitChar (c.toNat % 16)]

/-- Form-urlencode a string. -/
def urlEncode (s : String) : String :=
  String.mk ((s.data.map encodeChar).flatten)

/-- `URLSearchParams.toString()`: the pairs in insertion order, each
serialized as `key=value` with both sides encoded, joined with `&`. -/
def urlParamsToString (ps : List (String × String)) : String :=
  String.intercalate "&"
    (ps.map (fun kv => urlEncode kv.1 ++ "=" ++ urlEncode kv.2))

/-- The `generateGoogleCalendarUrl` function (src/app/events/page.tsx
lines 84-103): parse `post.time` and `post.end_time`, format both as
compact UTC instants, and serialize the five query parameters onto the
Google Calendar render endpoint.  It is a pure function of its argument:
no network call and no side effect (in JS, `toISOString` on an Invalid
Date would throw; the claims only exercise parseable instants, and the
`"Invalid Date"` literal models the unparseable branch as §4.5 of the
spec describes it). -/
def generateGoogleCalendarUrl (p : post) : String :=
  let startDateTime := jsDateParse p.time
  let endDateTime := jsDateParse p.end_time
  let fmt : Option DateParts → String := fun o =>
    match o with
    | some d => formatDate d
    | none => "Invalid Date"
  "https://calendar.google.com/calendar/render?" ++
    urlParamsToString
      [("action", "TEMPLATE"),
        ("text", p.title),
        ("details", p.title ++ " - Learn more at our website."),
        ("location", p.location),
        ("dates", fmt startDateTime ++ "/" ++ fmt endDateTime)]

/-- Value of a hexadecimal digit character. -/
def hexVal (c : Char) : Nat :=
  if c.isDigit then c.toNat - 48
  else if 'A' ≤ c ∧ c ≤ 'F' then c.toNat - 55
  else if 'a' ≤ c ∧ c ≤ 'f' then c.toNat - 87
  else 0

/-- Decode a form-urlencoded value: `%XX` becomes the coded character,
`'+'` becomes a space. -/
def percentDecode : List Char → List Char
  | '%' :: h1 :: h2 :: rest =>
    Char.ofNat (hexVal h1 * 16 + hexVal h2) :: percentDecode rest
  | '+' :: rest => ' ' :: percentDecode rest
  | c :: rest => c :: percentDecode rest
  | [] => []

/-- Join character groups with a separator (inverse of `splitOnChar` up
to the separator). -/
def joinWithChar (sep : Char) : List (List Char) → List Char
  | [] => []
  | [g] => g
  | g :: gs => g ++ sep :: joinWithChar sep gs

/-- The query string of a URL: everything after the first `'?'`. -/
def queryString (url : String) : List Char :=
  match splitOnChar '?' url.data with
  | _ :: rest => joinWithChar '?' rest
  | [] => []

/-- The decoded value of the first query parameter with the given key. -/
def queryParam (url key : String) : Option String :=
  ((splitOnChar '&' (queryString url)).filterMap (fun kv =>
    match splitOnChar '=' kv with
    | k :: vs =>
      if String.mk k = key then
        some (String.mk (percentDecode (joinWithChar '=' vs)))
      else none
    | [] => none)).head?

/-- The event of C6's concrete calendar-link check. -/
def c6post : post :=
  post.mk 1 "fair" "Fair" "img" "2024-07-01" [] "2024-07-01T10:00:00Z"
    "Park" "2024-07-01T12:00:00Z"

set_option maxRecDepth 100000 in
/-- C6: for the event with `time="2024-07-01T10:00:00Z"`,
`end_time="2024-07-01T12:00:00Z"`, `title="Fair"`, `location="Park"`,
the generated calendar URL's `dates` query parameter decodes to
`20240701T100000Z/20240701T120000Z` and its `text` parameter to `Fair`
(`generateGoogleCalendarUrl` being a function of the post alone models
its purity). -/
theorem generateGoogleCalendarUrl_values :
    queryParam (generateGoogleCalendarUrl c6post) "dates" =
        some "20240701T100000Z/20240701T120000Z" ∧
      queryParam (generateGoogleCalendarUrl c6post) "text" = some "Fair" := by
  decide
